import Mathlib

/-!
Verification of the datasheet pin-extraction pipeline.

The definitions below are a shallow embedding of the Python sources:
table_extractor.py (structural-table strategy), ocr_extractor.py
(diagram-recognition strategy), llm_extractor.py (language-model strategy)
and parse.py (orchestrator and CLI).  Pure string processing is modelled on
`List Char`; page rendering, recognition, table grids and provider calls are
external collaborators and therefore enter as plain inputs.
-/

namespace DSP

/-! ### Character classes (Python character classes, ASCII) -/

/-- Python whitespace class from the regexes used by the sources. -/
def isPyWs (c : Char) : Bool :=
  c = ' ' || c = '\t' || c = '\n' || c = '\r' || c = '\x0b' || c = '\x0c'

def isUpperCh (c : Char) : Bool := 'A' ≤ c && c ≤ 'Z'

def isLowerCh (c : Char) : Bool := 'a' ≤ c && c ≤ 'z'

def isDigitCh (c : Char) : Bool := '0' ≤ c && c ≤ '9'

/-- Python regex word character class (letters, digits, underscore). -/
def isWordCh (c : Char) : Bool := isUpperCh c || isLowerCh c || isDigitCh c || c = '_'

def lowerCh (c : Char) : Char :=
  if isUpperCh c then Char.ofNat (c.toNat + 32) else c

/-! ### String helpers modelling the Python string methods -/

/-- Python s.lower() (ASCII). -/
def strLower (s : String) : String := (s.toList.map lowerCh).asString

/-- Python s.strip(). -/
def pyStrip (s : String) : String :=
  (((s.toList.dropWhile isPyWs).reverse.dropWhile isPyWs).reverse).asString

/-- One collapse step for re.sub of a whitespace run by a single space. -/
def collapseChars : List Char → List Char
  | [] => []
  | [c] => [if isPyWs c then ' ' else c]
  | c :: d :: rest =>
    if isPyWs c && isPyWs d then collapseChars (d :: rest)
    else (if isPyWs c then ' ' else c) :: collapseChars (d :: rest)

/-- Python re.sub of a whitespace run by a single space. -/
def collapseWsStr (s : String) : String := (collapseChars s.toList).asString

def listContainsSub (needle : List Char) : List Char → Bool
  | [] => needle.isEmpty
  | l@(_ :: t) => needle.isPrefixOf l || listContainsSub needle t

/-- Python substring containment: sub in hay. -/
def strContains (hay sub : String) : Bool := listContainsSub sub.toList hay.toList

/-- Python s.split with separator a newline. -/
def splitNlChars : List Char → List (List Char)
  | [] => [[]]
  | c :: rest =>
    if c = '\n' then [] :: splitNlChars rest
    else
      match splitNlChars rest with
      | l :: ls => (c :: l) :: ls
      | [] => [[c]]

def pySplitNl (s : String) : List String := (splitNlChars s.toList).map List.asString

def digitsVal (l : List Char) : Nat :=
  l.foldl (fun n c => 10 * n + (c.toNat - '0'.toNat)) 0

/-- Python int(s) applied after a regex check that s consists of digits:
returns a value exactly when s is a nonempty digit string. -/
def pyToNat? (s : String) : Option Nat :=
  if s ≠ "" && s.toList.all isDigitCh then some (digitsVal s.toList) else none

/-- Python s.startswith(c) for a single character. -/
def startsWithCh (s : String) (c : Char) : Bool :=
  match s.toList with
  | d :: _ => d = c
  | [] => false

/-- Python sep.join(parts) with a single-space separator. -/
def joinSpace (parts : List String) : String :=
  (List.intercalate [' '] (parts.map String.toList)).asString

/-! ### The candidate merge of the structural-table strategy
(table_extractor.py lines 479-486): a dict keyed by pin number keeps the
first-inserted record per key, in key first-occurrence order, and the pins
are emitted sorted ascending by key. -/

/-- The seen dict of the merge: first write per key wins, keys ordered by
first occurrence.  The fuel argument (bounded by the list length) makes the
recursion structural. -/
def dedupFirstAux {α : Type} : Nat → List (Nat × α) → List (Nat × α)
  | 0, _ => []
  | _ + 1, [] => []
  | fuel + 1, c :: rest => c :: dedupFirstAux fuel (rest.filter (fun e => !(e.1 == c.1)))

def dedupFirst {α : Type} (l : List (Nat × α)) : List (Nat × α) :=
  dedupFirstAux l.length l

def keyLe {α : Type} : Nat × α → Nat × α → Prop := fun a b => a.1 ≤ b.1

instance {α : Type} : DecidableRel (@keyLe α) :=
  fun a b => inferInstanceAs (Decidable (a.1 ≤ b.1))

instance {α : Type} : IsTotal (Nat × α) keyLe := ⟨fun a b => Nat.le_total a.1 b.1⟩

instance {α : Type} : IsTrans (Nat × α) keyLe := ⟨fun _ _ _ h1 h2 => Nat.le_trans h1 h2⟩

/-- Python sorted over the (distinct) keys of an association list. -/
def sortByKey {α : Type} (l : List (Nat × α)) : List (Nat × α) := l.insertionSort keyLe

/-! ### Data model (schema.py) -/

/-- Pin.number: an int, or an alphanumeric identifier such as A1. -/
inductive PinNumber where
  | num : Nat → PinNumber
  | alpha : String → PinNumber
deriving DecidableEq, Repr

/-- The details dict of a Pin as built by the table strategy: only the keys
actually discovered are present. -/
structure PinDetails where
  type : Option String := none
  direction : Option String := none
  description : Option String := none
deriving DecidableEq, Repr

/-- schema.Pin. -/
structure Pin where
  number : PinNumber
  name : String
  details : Option PinDetails := none
deriving DecidableEq, Repr

/-- The metadata dict built by extract_metadata_from_text. -/
structure Metadata where
  features : List String
  applications : List String
  description : Option String
  title : Option String
  part_number : Option String
deriving DecidableEq, Repr

/-- config.MIN_PIN_NAME_LENGTH. -/
def MIN_PIN_NAME_LENGTH : Nat := 1

/-- config.MAX_PIN_NAME_LENGTH. -/
def MAX_PIN_NAME_LENGTH : Nat := 30

/-- The dict returned by extract_pins_from_tables on success. -/
structure TableResult where
  pins : List Pin
  metadata : Option Metadata
deriving DecidableEq, Repr

/-- The final merge (table_extractor.py 479-486): first write per pin number
wins, output sorted ascending by pin number. -/
def mergeCandidates (cands : List (Nat × Pin)) : List Pin :=
  (sortByKey (dedupFirst cands)).map (·.2)

/-! ### Document model.  pdfplumber is an external collaborator: a page
provides a grid of tables (cells are strings or null) and an optional
extracted text. -/

/-- One extracted table: a grid of rows of optional string cells. -/
abbrev Grid := List (List (Option String))

structure PDFPage where
  tables : List Grid
  text : Option String
deriving DecidableEq, Repr

structure PDFDoc where
  pages : List PDFPage
deriving DecidableEq, Repr

/-! ### Structural table strategy: header normalization and promotion
(table_extractor.py 161-176) -/

/-- Python truthiness of a cell: not None and not the empty string. -/
def truthyCell : Option String → Bool
  | some s => s ≠ ""
  | none => false

/-- str(h).lower().strip() if h else the empty string. -/
def pyStrNorm : Option String → String
  | some s => pyStrip (strLower s)
  | none => ""

/-- Row-0 header normalization: lower, strip, then collapse whitespace runs. -/
def normHeaderCell (c : Option String) : String := collapseWsStr (pyStrNorm c)

def row0Headers (table : Grid) : List String := (table.headD []).map normHeaderCell

def row1Headers (table : Grid) : List String := (table.getD 1 []).map pyStrNorm

/-- Header-row selection with promotion of row 1 (lines 163-176).  Returns
the headers and the index of the first data row. -/
def selectHeaders (table : Grid) : List String × Nat :=
  let headers := row0Headers table
  if 2 * headers.count "" > headers.length ∨ ¬ (headers.any fun h => strContains h "name") then
    if 2 < table.length then
      let h2 := row1Headers table
      if ["name", "type", "description"].any (fun kw => strContains (joinSpace h2) kw) then
        (h2, 2)
      else (headers, 1)
    else (headers, 1)
  else (headers, 1)

/-! ### Column-role inference (lines 181-234) -/

/-- Occurrence of the word name with regex word boundaries on both sides. -/
def wordBoundAfter : List Char → Bool
  | [] => true
  | c :: _ => !isWordCh c

def hasWordAux (w : List Char) : Bool → List Char → Bool
  | _, [] => false
  | prevW, l@(c :: rest) =>
    (!prevW && w.isPrefixOf l && wordBoundAfter (l.drop w.length)) ||
      hasWordAux w (isWordCh c) rest

def hasWordName (s : String) : Bool := hasWordAux "name".toList false s.toList

/-- Anchored match of the combined type and direction header: the letter i,
optional whitespace, a slash, optional whitespace, the letter o, mandatory
whitespace, then the word type. -/
def ioTypeMatch (s : String) : Bool :=
  match s.toList with
  | 'i' :: r1 =>
    (match r1.dropWhile isPyWs with
     | '/' :: r2 =>
       (match r2.dropWhile isPyWs with
        | 'o' :: r3 =>
          (match r3 with
           | c :: r4 => isPyWs c && "type".toList.isPrefixOf (r4.dropWhile isPyWs)
           | [] => false)
        | _ => false)
     | _ => false)
  | _ => false

/-- A standalone i/o token with word boundaries, optional inner whitespace. -/
def ioAt (prevW : Bool) (l : List Char) : Bool :=
  match l with
  | 'i' :: r1 =>
    !prevW &&
      (match r1.dropWhile isPyWs with
       | '/' :: r2 =>
         (match r2.dropWhile isPyWs with
          | 'o' :: r3 => wordBoundAfter r3
          | _ => false)
       | _ => false)
  | _ => false

def hasIOAux : Bool → List Char → Bool
  | _, [] => false
  | prevW, l@(c :: rest) => ioAt prevW l || hasIOAux (isWordCh c) rest

def hasIOToken (s : String) : Bool := hasIOAux false s.toList

/-- Search for the string a, then any characters other than a newline, then
the string b (the regex a.*b without the DOTALL flag). -/
def afterNoNl (b : List Char) : List Char → Bool
  | [] => b.isPrefixOf []
  | l@(c :: rest) => b.isPrefixOf l || (c ≠ '\n' && afterNoNl b rest)

def searchSepAux (a b : List Char) : List Char → Bool
  | [] => false
  | l@(_ :: rest) => (a.isPrefixOf l && afterNoNl b (l.drop a.length)) || searchSepAux a b rest

def searchSep (a b : String) (h : String) : Bool := searchSepAux a.toList b.toList h.toList

/-- The five inferred column roles (None means unresolved). -/
structure Roles where
  pinIdx : Option Nat := none
  nameIdx : Option Nat := none
  typeIdx : Option Nat := none
  dirIdx : Option Nat := none
  descIdx : Option Nat := none
deriving DecidableEq, Repr

/-- One iteration of the header loop of lines 188-234. -/
def roleStep (i : Nat) (h : String) (st : Roles) : Roles :=
  let hl := strLower h
  let st1 := if strContains hl "pin" && !(strContains hl "description") then
      { st with pinIdx := some i } else st
  let nameCond :=
    (hasWordName hl || strContains hl "signal" || strContains hl "function" ||
        strContains hl "device") &&
      !(strContains hl "description") && !(strContains hl "package") &&
      !(strContains hl "orderable") && !(strContains hl "reel") && !(strContains hl "spq")
  let st2 := if nameCond && st1.nameIdx.isNone then { st1 with nameIdx := some i } else st1
  if ioTypeMatch hl then
    let st3 := if st2.typeIdx.isNone then { st2 with typeIdx := some i } else st2
    if st3.dirIdx.isNone then { st3 with dirIdx := some i } else st3
  else
    let typeCond := (hl == "type" || strContains hl "analog" || strContains hl "digital") &&
      !(strContains hl "description")
    let st3 :=
      if typeCond && st2.typeIdx.isNone then
        let st' := { st2 with typeIdx := some i }
        if (strContains hl "input" || strContains hl "output") && st'.dirIdx.isNone then
          { st' with dirIdx := some i }
        else st'
      else st2
    let dirCond :=
      (searchSep "input" "output" hl || searchSep "output" "input" hl ||
          strContains hl "direction") && !(strContains hl "type") &&
        (hasIOToken hl && !(strContains hl "type"))
    let st4 := if dirCond && st3.dirIdx.isNone then { st3 with dirIdx := some i } else st3
    if strContains hl "description" && st4.descIdx.isNone then
      { st4 with descIdx := some i }
    else st4

def inferRoles (headers : List String) : Roles :=
  (headers.enum).foldl (fun st p => roleStep p.1 p.2 st) {}

/-! ### Special-case probe for a pin-number column (lines 238-253) -/

def probeCol (rows : List (List (Option String))) (col : Nat) : Bool :=
  rows.any fun row =>
    truthyCell (row.getD col none) &&
      (pyToNat? (pyStrip ((row.getD col none).getD ""))).isSome

def findPinCol (rows : List (List (Option String))) (numCols : Nat) : Option Nat :=
  ((List.range (min 4 numCols)).drop 1).find? (probeCol rows)

/-- Packaging-table rejection (line 266). -/
def packagingTable (headers : List String) : Bool :=
  ["reel diameter", "length(mm)", "width(mm)", "height(mm)"].any
    (fun kw => strContains (joinSpace headers) kw)

/-! ### Row extraction and validation (lines 272-390) -/

/-- str(cell).strip() if cell else the empty string. -/
def strippedCell : Option String → String
  | some s => if s ≠ "" then pyStrip s else ""
  | none => ""

/-- Type derivation by substring tests in priority order (lines 319-329). -/
def typeFromLower (tl : String) : Option String :=
  if strContains tl "analog" && strContains tl "digital" then some "Analog/Digital"
  else if strContains tl "analog" then some "Analog"
  else if strContains tl "digital" then some "Digital"
  else if strContains tl "power" || strContains tl "supply" then some "Power"
  else if strContains tl "ground" || tl == "gnd" || tl == "ground" then some "Ground"
  else none

/-- Lines 312-335 including the adjacent-column supply probe. -/
def deriveType (row : List (Option String)) (typeIdx : Option Nat) : Option String :=
  match typeIdx with
  | none => none
  | some i =>
    if truthyCell (row.getD i none) then
      let tl := strLower (collapseWsStr (pyStrip ((row.getD i none).getD "")))
      match typeFromLower tl with
      | some t => some t
      | none =>
        if truthyCell (row.getD (i + 1) none) then
          let adj := strLower (pyStrip ((row.getD (i + 1) none).getD ""))
          if strContains adj "supply" || strContains adj "power" then some "Power" else none
        else none
    else none

/-- Direction derivation from the direction-role cell (lines 344-350). -/
def dirFromLower (dl : String) : Option String :=
  if strContains dl "i/o" || strContains dl "i / o" || strContains dl "bidirectional" ||
      strContains dl "input/output" || strContains dl "inout" then some "I/O"
  else if strContains dl "output" then some "Output"
  else if strContains dl "input" then some "Input"
  else none

def deriveDirection (row : List (Option String)) (dirIdx : Option Nat) : Option String :=
  match dirIdx with
  | none => none
  | some i =>
    if truthyCell (row.getD i none) then
      dirFromLower (strLower (collapseWsStr (pyStrip ((row.getD i none).getD ""))))
    else none

/-- Fallback direction derivation from the type-role cell (lines 352-366). -/
def dirFromTypeLower (tl : String) : Option String :=
  if strContains tl "i/o" || strContains tl "i / o" || strContains tl "input/output" ||
      strContains tl "input / output" then some "I/O"
  else if strContains tl "output" then some "Output"
  else if strContains tl "input" then some "Input"
  else none

def deriveDirFallback (row : List (Option String)) (typeIdx : Option Nat) : Option String :=
  match typeIdx with
  | none => none
  | some i =>
    if truthyCell (row.getD i none) then
      dirFromTypeLower (strLower (collapseWsStr (pyStrip ((row.getD i none).getD ""))))
    else none

/-- Description-role cell text if longer than 3 characters (lines 368-372). -/
def deriveDescription (row : List (Option String)) (descIdx : Option Nat) : Option String :=
  match descIdx with
  | none => none
  | some i =>
    if truthyCell (row.getD i none) then
      let d := pyStrip ((row.getD i none).getD "")
      if 3 < d.length then some d else none
    else none

/-- The details dict is omitted entirely when empty (line 387). -/
def mkDetails (t d ds : Option String) : Option PinDetails :=
  if t = none ∧ d = none ∧ ds = none then none else some ⟨t, d, ds⟩

/-- The name matches three uppercase letters followed by four digits
(anchored at the start only, line 308). -/
def partNumName (name : String) : Bool :=
  match name.toList with
  | a :: b :: c :: d :: e :: f :: g :: _ =>
    isUpperCh a && isUpperCh b && isUpperCh c &&
      isDigitCh d && isDigitCh e && isDigitCh f && isDigitCh g
  | _ => false

def maxRoleIdx (pi ni : Nat) (ti di dsi : Option Nat) : Nat :=
  ([some pi, some ni, ti, di, dsi].filterMap id).foldl max 0

/-- The pin-number cell text, with the fallback to the immediately following
column when the pin cell is empty (lines 284-287). -/
def pinNumStr (pi : Nat) (row : List (Option String)) : String :=
  let pn0 := strippedCell (row.getD pi none)
  if pn0 = "" ∧ pi + 1 < row.length ∧ truthyCell (row.getD (pi + 1) none) then
    strippedCell (row.getD (pi + 1) none)
  else pn0

/-- One data row of a recognized pin table (lines 272-390). -/
def processRow (pi ni : Nat) (ti di dsi : Option Nat) (row : List (Option String)) :
    Option (Nat × Pin) :=
  if (row.filter (fun c => truthyCell (c.map pyStrip))).length < 2 then none
  else if row.length ≤ maxRoleIdx pi ni ti di dsi then none
  else
    let name := strippedCell (row.getD ni none)
    (pyToNat? (pinNumStr pi row)).bind fun n =>
      if n = 0 then none
      else if name.length < MIN_PIN_NAME_LENGTH ∨ MAX_PIN_NAME_LENGTH < name.length then none
      else if (name ≠ "" ∧ name.toList.all isDigitCh) ∧ name.length ≤ 2 then none
      else if partNumName name then none
      else
        let pinType := deriveType row ti
        let direction :=
          match deriveDirection row di with
          | some d => some d
          | none => deriveDirFallback row ti
        let description := deriveDescription row dsi
        some (n, { number := .num n, name := name,
                   details := mkDetails pinType direction description })

/-- Candidates of one table (lines 157-390). -/
def processTable (table : Grid) : List (Nat × Pin) :=
  if table.length < 2 then []
  else
    let hs := selectHeaders table
    let headers := hs.1
    let dstart := hs.2
    let roles := inferRoles headers
    let pinIdx :=
      if roles.nameIdx = some 0 ∧ roles.pinIdx = none then
        findPinCol ((table.drop dstart).take 3) headers.length
      else roles.pinIdx
    match pinIdx, roles.nameIdx with
    | some pidx, some nidx =>
      if packagingTable headers then []
      else (table.drop dstart).filterMap (processRow pidx nidx roles.typeIdx roles.dirIdx roles.descIdx)
    | _, _ => []

/-- Table candidates over the first 50 pages, in table encounter order. -/
def tableCandidates (doc : PDFDoc) : List (Nat × Pin) :=
  (doc.pages.take 50).flatMap (fun pg => pg.tables.flatMap processTable)

/-! ### Text-line fallback pass (lines 401-462) -/

def isNameClassCh (c : Char) : Bool :=
  isUpperCh c || isDigitCh c || c = '/' || c = '_' || c = '-'

/-- The anchored match of digits, whitespace, an uppercase-led token of 2-21
characters, whitespace, and a nonempty remainder, applied to the stripped
line (line 414). -/
def lineMatch (line : String) : Option (Nat × String × String) :=
  let s := (pyStrip line).toList
  let p1 := s.span isDigitCh
  if p1.1.isEmpty then none
  else
    let p2 := p1.2.span isPyWs
    if p2.1.isEmpty then none
    else
      match p2.2 with
      | [] => none
      | c :: _ =>
        if !isUpperCh c then none
        else
          let p3 := p2.2.span isNameClassCh
          if p3.1.length < 2 ∨ 21 < p3.1.length then none
          else
            let p4 := p3.2.span isPyWs
            if p4.1.isEmpty then none
            else if p4.2.isEmpty then none
            else
              match pyToNat? p1.1.asString with
              | some n => some (n, p3.1.asString, p4.2.asString)
              | none => none

/-- The small denylist of false-positive names (lines 438-444). -/
def falsePositive (name : String) : Bool :=
  name == "DR" ||
  (name ≠ "" && name.toList.all isDigitCh) ||
  (match name.toList with
   | [a, b] => isUpperCh a && b = 'S'
   | _ => false) ||
  (match name.toList with
   | [a, b] => a = 'T' && isUpperCh b
   | _ => false)

/-- Description rejection: begins with a comparison operator or is purely
numeric (line 451). -/
def descBad (desc : String) : Bool :=
  (match desc.toList with
   | c :: _ => c = '=' || c = '<' || c = '>'
   | [] => false) ||
  (desc ≠ "" && desc.toList.all isDigitCh)

/-- One text line of the fallback pass, checked against the candidates
accumulated so far (lines 412-460). -/
def lineCand (acc : List (Nat × Pin)) (line : String) : Option (Nat × Pin) :=
  (lineMatch line).bind fun m =>
    let n := m.1
    let name := m.2.1
    let desc := pyStrip m.2.2
    if n = 0 then none
    else if 256 < n then none
    else if acc.any (fun p => p.1 == n) then none
    else if !(match name.toList with
              | c :: _ => isUpperCh c
              | [] => false) then none
    else if falsePositive name then none
    else if MIN_PIN_NAME_LENGTH ≤ name.length ∧ name.length ≤ MAX_PIN_NAME_LENGTH then
      if descBad desc then none
      else some (n, { number := .num n, name := name,
                      details := if desc ≠ "" then some ⟨none, none, some desc⟩ else none })
    else none

/-- A matched candidate is appended; otherwise the accumulator is kept. -/
def lineAccum (acc : List (Nat × Pin)) (line : String) : List (Nat × Pin) :=
  match lineCand acc line with
  | some c => acc ++ [c]
  | none => acc

def textScanLines (acc : List (Nat × Pin)) : List String → List (Nat × Pin)
  | [] => acc
  | l :: ls => textScanLines (lineAccum acc l) ls

/-- One page of the fallback pass: pages with falsy text are skipped. -/
def pageAccum (acc : List (Nat × Pin)) (pg : PDFPage) : List (Nat × Pin) :=
  match pg.text with
  | some t => if t = "" then acc else textScanLines acc (pySplitNl t)
  | none => acc

def textScanPages (acc : List (Nat × Pin)) : List PDFPage → List (Nat × Pin)
  | [] => acc
  | pg :: pgs => textScanPages (pageAccum acc pg) pgs

/-- All candidates: table candidates first, then the text-fallback pass
(which deduplicates against the accumulated list at insertion time). -/
def allCandidates (doc : PDFDoc) : List (Nat × Pin) :=
  textScanPages (tableCandidates doc) (doc.pages.take 50)

/-! ### Metadata extraction from first-page text (lines 16-113) -/

/-- Match at a position of the part-number pattern: at least two uppercase
letters, at least three digits, a possibly empty uppercase-or-digit tail,
and a word boundary after. -/
def partNumAt (s : List Char) : Option (List Char) :=
  let p1 := s.span isUpperCh
  if p1.1.length < 2 then none
  else
    let p2 := p1.2.span isDigitCh
    if p2.1.length < 3 then none
    else
      let p3 := p2.2.span (fun c => isUpperCh c || isDigitCh c)
      match p3.2 with
      | [] => some (p1.1 ++ p2.1 ++ p3.1)
      | c :: _ => if isWordCh c then none else some (p1.1 ++ p2.1 ++ p3.1)

def partNumSearch : Bool → List Char → Option String
  | _, [] => none
  | prevW, l@(c :: rest) =>
    match (if prevW then none else partNumAt l) with
    | some m => some m.asString
    | none => partNumSearch (isWordCh c) rest

/-- First part-number match over the first 10 lines (lines 37-41). -/
def findPartNumber (lines : List String) : Option String :=
  (lines.take 10).foldl
    (fun acc line =>
      match acc with
      | some _ => acc
      | none => partNumSearch false line.toList) none

/-- Python s.isupper(): has a cased character and no lowercase one. -/
def pyIsUpper (s : String) : Bool :=
  s.toList.any (fun c => isUpperCh c || isLowerCh c) && s.toList.all (fun c => !(isLowerCh c))

/-- Title scan over the first 15 lines (lines 44-48). -/
def findTitle (lines : List String) : Option String :=
  (lines.take 15).foldl
    (fun acc line =>
      match acc with
      | some _ => acc
      | none =>
        if 20 < line.length ∧ line.length < 150 ∧ ¬ pyIsUpper line ∧
            (["converter", "regulator", "amplifier", "controller", "interface"].any
              (fun w => strContains (strLower line) w)) then
          some (pyStrip line)
        else none) none

/-- re.sub removal of one leading bullet character with any following
whitespace (line 67): anchored, so it only fires when the raw line starts
with the bullet. -/
def stripBullet (s : String) : String :=
  match s.toList with
  | c :: rest =>
    if c = '•' || c = '-' || c = '*' then (rest.dropWhile isPyWs).asString else s
  | [] => s

/-- The features-section loop (lines 51-69). -/
def featuresScan : Bool → List String → List String
  | _, [] => []
  | inF, line :: rest =>
    let ll := pyStrip (strLower line)
    if strContains ll "features" && decide (ll.length < 30) then featuresScan true rest
    else if inF then
      if ["description", "application", "specification", "pin config"].any
          (fun s => strContains ll s) then featuresScan false rest
      else if startsWithCh (pyStrip line) '•' || startsWithCh (pyStrip line) '-' then
        let f := pyStrip (stripBullet line)
        if 5 < f.length ∧ f.length < 200 then f :: featuresScan inF rest
        else featuresScan inF rest
      else featuresScan inF rest
    else featuresScan inF rest

/-- The applications-section loop (lines 72-90). -/
def appsScan : Bool → List String → List String
  | _, [] => []
  | inA, line :: rest =>
    let ll := pyStrip (strLower line)
    if strContains ll "application" && decide (ll.length < 30) then appsScan true rest
    else if inA then
      if ["pin config", "specification", "features"].any (fun s => strContains ll s) then
        appsScan false rest
      else if startsWithCh (pyStrip line) '•' || startsWithCh (pyStrip line) '-' then
        let f := pyStrip (stripBullet line)
        if 5 < f.length ∧ f.length < 200 then f :: appsScan inA rest
        else appsScan inA rest
      else appsScan inA rest
    else appsScan inA rest

/-- The description-section loop (lines 93-108); the section break ends the
whole loop. -/
def descScan : Bool → List String → List String
  | _, [] => []
  | inD, line :: rest =>
    let ll := pyStrip (strLower line)
    if ll == "description" || (decide (ll.length < 30) && strContains ll "description") then
      descScan true rest
    else if inD then
      if ["pin config", "pin description", "specification", "features", "application"].any
          (fun s => strContains ll s) then []
      else if pyStrip line ≠ "" ∧ ¬ (startsWithCh (pyStrip line) '•') then
        pyStrip line :: descScan inD rest
      else descScan inD rest
    else descScan inD rest

/-- extract_metadata_from_text (lines 16-113). -/
def extract_metadata_from_text (text : String) : Metadata :=
  let lines := pySplitNl text
  let dt := descScan false lines
  { features := featuresScan false lines
    applications := appsScan false lines
    description := if dt = [] then none else some (joinSpace (dt.take 10))
    title := findTitle lines
    part_number := findPartNumber lines }

/-- Metadata of the document: extracted from the first page when its text is
truthy (lines 141-146). -/
def docMetadata (doc : PDFDoc) : Option Metadata :=
  match doc.pages.head? with
  | some pg =>
    (match pg.text with
     | some t => if t = "" then none else some (extract_metadata_from_text t)
     | none => none)
  | none => none

/-- extract_pins_from_tables (lines 116-494), over the document model. -/
def extract_pins_from_tables (doc : PDFDoc) : Option TableResult :=
  if allCandidates doc = [] then
    match docMetadata doc with
    | some m => some { pins := [], metadata := some m }
    | none => none
  else some { pins := mergeCandidates (allCandidates doc), metadata := docMetadata doc }

/-! ### Diagram-recognition strategy (ocr_extractor.py).  The recognized
text of the rendered pages is the external input; the two findall passes
are modelled by leftmost non-overlapping scanning with the greedy runs the
regexes admit (the token class and whitespace are disjoint, so greedy
matching never backtracks across them). -/

/-- The token class of both diagram patterns. -/
def isTokA (c : Char) : Bool :=
  isUpperCh c || isLowerCh c || isDigitCh c || c = '_' || c = '/' || c = '.' || c = '-'

/-- Pattern of a token, whitespace, then a 1-3 digit group: the digit group
takes at most 3 digits of the following digit run. -/
def tryMatchA (s : List Char) : Option ((String × String) × List Char) :=
  let p1 := s.span isTokA
  if p1.1.isEmpty then none
  else
    let p2 := p1.2.span isPyWs
    if p2.1.isEmpty then none
    else
      let p3 := p2.2.span isDigitCh
      if p3.1.isEmpty then none
      else some ((p1.1.asString, (p3.1.take 3).asString), p3.1.drop 3 ++ p3.2)

/-- Pattern of a 1-3 digit group, whitespace, then a token: a digit run
longer than 3 cannot match because the group must be followed by
whitespace. -/
def tryMatchB (s : List Char) : Option ((String × String) × List Char) :=
  let p1 := s.span isDigitCh
  if p1.1.isEmpty || decide (3 < p1.1.length) then none
  else
    let p2 := p1.2.span isPyWs
    if p2.1.isEmpty then none
    else
      let p3 := p2.2.span isTokA
      if p3.1.isEmpty then none
      else some ((p1.1.asString, p3.1.asString), p3.2)

/-- re.findall: scan left to right, emit each leftmost match and continue
at its end. -/
def findallAux (f : List Char → Option ((String × String) × List Char)) :
    Nat → List Char → List (String × String)
  | 0, _ => []
  | _ + 1, [] => []
  | fuel + 1, l@(_ :: rest) =>
    match f l with
    | some (m, l2) => m :: findallAux f fuel l2
    | none => findallAux f fuel rest

def findallA (text : String) : List (String × String) :=
  findallAux tryMatchA text.toList.length text.toList

def findallB (text : String) : List (String × String) :=
  findallAux tryMatchB text.toList.length text.toList

/-- Pairs of pattern A (name first), validated as pure digits (lines 54-57). -/
def pairsA (text : String) : List (Nat × String) :=
  (findallA text).filterMap (fun m => (pyToNat? m.2).map (fun n => (n, m.1)))

/-- Pairs of pattern B (number first), validated as pure digits (lines 59-62). -/
def pairsB (text : String) : List (Nat × String) :=
  (findallB text).filterMap (fun m => (pyToNat? m.1).map (fun n => (n, m.2)))

/-- The pooled pairs of both patterns in source order. -/
def ocrPairs (text : String) : List (Nat × String) := pairsA text ++ pairsB text

/-- One write into the cleaned dict: an existing key keeps its position but
takes the new value; a new key is appended. -/
def dictInsert {α : Type} (d : List (Nat × α)) (k : Nat) (v : α) : List (Nat × α) :=
  if d.any (fun e => e.1 == k) then d.map (fun e => if e.1 == k then (k, v) else e)
  else d ++ [(k, v)]

/-- The cleaned dict of lines 68-70: last write per key wins. -/
def dedupLast {α : Type} (pairs : List (Nat × α)) : List (Nat × α) :=
  pairs.foldl (fun d c => dictInsert d c.1 c.2) []

/-- extract_pins_from_ocr (lines 16-72) applied to the recognized text. -/
def extract_pins_from_ocr (text : String) : Option (List String) :=
  if ocrPairs text = [] then none
  else some ((sortByKey (dedupLast (ocrPairs text))).map (·.2))

/-! ### Traditional orchestrator (parse.py lines 27-87) -/

/-- The outcome of one orchestrator run, with the record of which fallback
strategies were invoked. -/
structure TradTrace where
  result : Option TableResult
  ocrInvoked : Bool
  textInvoked : Bool
deriving DecidableEq, Repr

/-- Conversion of bare name lists to Pin records with sequential numbers
starting at 1 (lines 68 and 82). -/
def numberNames (names : List String) : List Pin :=
  (names.enumFrom 1).map (fun p => { number := .num p.1, name := p.2 })

def tradText (txt : Option (List String)) : TradTrace :=
  match txt with
  | some names =>
    if names = [] then ⟨none, true, true⟩
    else ⟨some { pins := numberNames names, metadata := none }, true, true⟩
  | none => ⟨none, true, true⟩

def tradFallback (ocr txt : Option (List String)) : TradTrace :=
  match ocr with
  | some names =>
    if names = [] then tradText txt
    else ⟨some { pins := numberNames names, metadata := none }, true, false⟩
  | none => tradText txt

/-- extract_pins_traditional, over the three strategy results. -/
def extract_pins_traditional (tbl : Option TableResult) (ocr txt : Option (List String)) :
    TradTrace :=
  match tbl with
  | some r => if r.pins = [] then tradFallback ocr txt else ⟨some r, false, false⟩
  | none => tradFallback ocr txt

/-! ### Language-model strategy (llm_extractor.py lines 282-340).  The
per-page provider call (process_page_with_llm) is an external collaborator
whose per-page outcome enters as a function input; None stands for a page
with a validation failure, a provider error, or no pin information. -/

/-- One element of pages_data as built by extract_text_from_pdf. -/
structure PageData where
  page_number : Nat
  text : String
  char_count : Nat
deriving DecidableEq, Repr

/-- A truthy per-page result dict. -/
structure LlmPageResult where
  pins : List Pin
deriving DecidableEq, Repr

/-- The dict returned by extract_pins_with_llm. -/
structure LlmOutcome where
  success : Bool
  total_pages : Nat
  pages_with_pins : Nat
  pins : List Pin
  llm_results : List LlmPageResult
deriving DecidableEq, Repr

/-- extract_pins_with_llm: all_pins is initialized empty and never extended
(the aggregation statement at line 324 is commented out). -/
def extract_pins_with_llm (pages_data : List PageData)
    (llm : PageData → Option LlmPageResult) : Option LlmOutcome :=
  if pages_data = [] then none
  else
    let results := pages_data.filterMap llm
    some { success := true, total_pages := pages_data.length,
           pages_with_pins := results.length, pins := [], llm_results := results }

/-! ### CLI result-output step (parse.py main, lines 207-344).  Python local
variables are tracked explicitly: an Option wrapper distinguishes a bound
variable from an unbound one, and reading an unbound local raises. -/

inductive Method where
  | traditional : Method
  | llm : Method
deriving DecidableEq, Repr

inductive CliOutcome where
  | printedJson : List Pin → Option Metadata → CliOutcome
  | unboundLocal : String → CliOutcome
  | exitFail : CliOutcome
deriving DecidableEq, Repr

/-- The result-output step (lines 247-344): a truthy pin list reads the
metadata variable before printing the final JSON. -/
def outputStep (pins : Option (List Pin)) (metadataVar : Option (Option Metadata)) :
    CliOutcome :=
  match pins with
  | some ps =>
    if ps = [] then .exitFail
    else
      match metadataVar with
      | none => .unboundLocal "metadata"
      | some m => .printedJson ps m
  | none => .exitFail

/-- The extraction-and-output part of main (lines 207-344): the metadata
local is assigned only in the traditional branch. -/
def mainModel (method : Method) (tradRes : Option TableResult)
    (llmRes : Option LlmOutcome) : CliOutcome :=
  match method with
  | .llm =>
    match llmRes with
    | some r =>
      if r.success then
        if r.pins = [] then .exitFail
        else outputStep (some r.pins) none
      else .exitFail
    | none => .exitFail
  | .traditional =>
    match tradRes with
    | some r => outputStep (some r.pins) (some r.metadata)
    | none => outputStep none none

/-! ### Lemmas about the first-write merge -/

theorem dedupFirstAux_congr {α : Type} :
    ∀ (f1 : Nat) (l : List (Nat × α)) (f2 : Nat), l.length ≤ f1 → l.length ≤ f2 →
      dedupFirstAux f1 l = dedupFirstAux f2 l := by
  intro f1
  induction f1 with
  | zero =>
    intro l f2 h1 _
    rcases List.eq_nil_of_length_eq_zero (Nat.le_zero.mp h1) with rfl
    cases f2 <;> rfl
  | succ n ih =>
    intro l f2 h1 h2
    cases l with
    | nil => cases f2 <;> rfl
    | cons c rest =>
      cases f2 with
      | zero => simp at h2
      | succ m =>
        simp only [dedupFirstAux]
        congr 1
        refine ih _ _ ?_ ?_
        · exact le_trans (List.length_filter_le _ _)
            (Nat.le_of_succ_le_succ (by simpa using h1))
        · exact le_trans (List.length_filter_le _ _)
            (Nat.le_of_succ_le_succ (by simpa using h2))

theorem dedupFirst_nil {α : Type} : dedupFirst ([] : List (Nat × α)) = [] := rfl

theorem dedupFirst_cons {α : Type} (c : Nat × α) (rest : List (Nat × α)) :
    dedupFirst (c :: rest) = c :: dedupFirst (rest.filter (fun e => !(e.1 == c.1))) := by
  unfold dedupFirst
  simp only [List.length_cons, dedupFirstAux]
  congr 1
  exact dedupFirstAux_congr _ _ _ (List.length_filter_le _ _) le_rfl

/-- The induction principle following the first-occurrence recursion. -/
theorem dedupFirst_induction {α : Type} {motive : List (Nat × α) → Prop}
    (h0 : motive [])
    (h1 : ∀ c rest, motive (rest.filter (fun e => !(e.1 == c.1))) → motive (c :: rest)) :
    ∀ l, motive l := by
  have H : ∀ n (l : List (Nat × α)), l.length ≤ n → motive l := by
    intro n
    induction n with
    | zero =>
      intro l hl
      rcases List.eq_nil_of_length_eq_zero (Nat.le_zero.mp hl) with rfl
      exact h0
    | succ n ih =>
      intro l hl
      cases l with
      | nil => exact h0
      | cons c rest =>
        refine h1 c rest (ih _ ?_)
        exact le_trans (List.length_filter_le _ _)
          (Nat.le_of_succ_le_succ (by simpa using hl))
  exact fun l => H l.length l le_rfl

theorem dedupFirst_subset {α : Type} :
    ∀ (l : List (Nat × α)), ∀ c ∈ dedupFirst l, c ∈ l := by
  intro l
  induction l using dedupFirst_induction with
  | h0 => simp [dedupFirst_nil]
  | h1 hd rest ih =>
    intro c hc
    rw [dedupFirst_cons] at hc
    rcases List.mem_cons.mp hc with h | h
    · exact h ▸ List.mem_cons_self _ _
    · exact List.mem_cons_of_mem _ (List.mem_filter.mp (ih c h)).1

theorem dedupFirst_keys_pairwise {α : Type} :
    ∀ (l : List (Nat × α)), (dedupFirst l).Pairwise (fun a b => a.1 ≠ b.1) := by
  intro l
  induction l using dedupFirst_induction with
  | h0 => simp [dedupFirst_nil]
  | h1 hd rest ih =>
    rw [dedupFirst_cons]
    refine List.Pairwise.cons ?_ ih
    intro b hb
    have hbf := dedupFirst_subset _ b hb
    have h2 := (List.mem_filter.mp hbf).2
    simp only [Bool.not_eq_true', beq_eq_false_iff_ne, ne_eq] at h2
    exact fun h => h2 h.symm

theorem find?_filter_keyNe {α : Type} (k m : Nat) (hne : m ≠ k) :
    ∀ (l : List (Nat × α)),
      (l.filter (fun e => !(e.1 == k))).find? (fun e => e.1 == m) =
        l.find? (fun e => e.1 == m) := by
  intro l
  induction l with
  | nil => simp
  | cons c rest ih =>
    by_cases hck : c.1 = k
    · have hcm : (c.1 == m) = false := by
        simp only [beq_eq_false_iff_ne, ne_eq, hck]
        exact fun h => hne h.symm
      simp only [List.filter_cons, hck]
      simp only [beq_self_eq_true, Bool.not_true, Bool.false_eq_true, if_false]
      rw [ih, List.find?_cons, hck]
      rw [hck] at hcm
      rw [hcm]
    · have hfc : (!(c.1 == k)) = true := by simpa using hck
      simp only [List.filter_cons, hfc, if_true]
      rw [List.find?_cons, List.find?_cons]
      by_cases hcm : c.1 = m
      · simp [hcm]
      · have hcm2 : (c.1 == m) = false := by simpa using hcm
        rw [hcm2]
        simpa using ih

theorem find?_dedupFirst {α : Type} :
    ∀ (l : List (Nat × α)) (n : Nat) (v : α), (n, v) ∈ dedupFirst l →
      l.find? (fun e => e.1 == n) = some (n, v) := by
  intro l
  induction l using dedupFirst_induction with
  | h0 => simp [dedupFirst_nil]
  | h1 hd rest ih =>
    intro n v hm
    rw [dedupFirst_cons] at hm
    rcases List.mem_cons.mp hm with h | h
    · rw [List.find?_cons, ← h]
      simp
    · have hfilter := dedupFirst_subset _ _ h
      have hne : n ≠ hd.1 := by
        have h2 := (List.mem_filter.mp hfilter).2
        simpa using h2
      rw [List.find?_cons]
      have hhd : (hd.1 == n) = false := by
        simp only [beq_eq_false_iff_ne, ne_eq]
        exact fun hh => hne hh.symm
      rw [hhd]
      simp only [Bool.false_eq_true, if_false]
      rw [← find?_filter_keyNe hd.1 n hne rest]
      exact ih n v h

theorem mem_keys_dedupFirst {α : Type} :
    ∀ (l : List (Nat × α)) (n : Nat),
      (∃ v, (n, v) ∈ dedupFirst l) ↔ (∃ v, (n, v) ∈ l) := by
  intro l
  induction l using dedupFirst_induction with
  | h0 => simp [dedupFirst_nil]
  | h1 hd rest ih =>
    intro n
    constructor
    · rintro ⟨v, hv⟩
      exact ⟨v, dedupFirst_subset _ _ hv⟩
    · rintro ⟨v, hv⟩
      rcases List.mem_cons.mp hv with h | h
      · exact ⟨v, by rw [dedupFirst_cons]; exact h ▸ List.mem_cons_self _ _⟩
      · by_cases hn : n = hd.1
        · refine ⟨hd.2, ?_⟩
          rw [dedupFirst_cons, hn]
          exact List.mem_cons_self _ _
        · have hmem : (n, v) ∈ rest.filter (fun e => !(e.1 == hd.1)) := by
            rw [List.mem_filter]
            exact ⟨h, by simpa using hn⟩
          rcases (ih n).mpr ⟨v, hmem⟩ with ⟨v2, hv2⟩
          exact ⟨v2, by rw [dedupFirst_cons]; exact List.mem_cons_of_mem _ hv2⟩

theorem sortByKey_perm {α : Type} (l : List (Nat × α)) : List.Perm (sortByKey l) l :=
  List.perm_insertionSort _ _

theorem sortByKey_sorted {α : Type} (l : List (Nat × α)) :
    List.Sorted keyLe (sortByKey l) :=
  List.sorted_insertionSort _ _

theorem sortByKey_pairwise_lt {α : Type} (l : List (Nat × α))
    (h : l.Pairwise fun a b => a.1 ≠ b.1) :
    (sortByKey l).Pairwise (fun a b : Nat × α => a.1 < b.1) := by
  have hne : (sortByKey l).Pairwise (fun a b => a.1 ≠ b.1) :=
    ((sortByKey_perm l).pairwise_iff (fun hab => hab.symm)).mpr h
  exact ((sortByKey_sorted l).and hne).imp
    (fun hab => Nat.lt_of_le_of_ne hab.1 hab.2)

theorem mergeCandidates_mem {cands : List (Nat × Pin)} {p : Pin}
    (hp : p ∈ mergeCandidates cands) : ∃ n, (n, p) ∈ dedupFirst cands := by
  unfold mergeCandidates at hp
  rcases List.mem_map.mp hp with ⟨c, hc, hcp⟩
  refine ⟨c.1, ?_⟩
  have hmem := (sortByKey_perm _).mem_iff.mp hc
  rw [← hcp]
  exact hmem

/-- Strict numeric order on pin numbers; alphanumeric identifiers are not
ordered. -/
def pinNumLt : PinNumber → PinNumber → Prop
  | .num a, .num b => a < b
  | _, _ => False

/-! ### Soundness of every candidate source: the key is the nonzero numeric
pin number of the record. -/

/-- Soundness predicate of one candidate pair. -/
def SoundCand (c : Nat × Pin) : Prop := c.2.number = PinNumber.num c.1 ∧ c.1 ≠ 0

theorem processRow_sound {pi ni : Nat} {ti di dsi : Option Nat}
    {row : List (Option String)} {c : Nat × Pin}
    (h : processRow pi ni ti di dsi row = some c) : SoundCand c := by
  unfold processRow at h
  simp only [Option.ite_none_left_eq_some, Option.bind_eq_some, Option.some.injEq] at h
  obtain ⟨hA, hB, n, hpn, h0, hlen, hdig, hpart, rfl⟩ := h
  exact ⟨rfl, h0⟩

theorem lineCand_sound {acc : List (Nat × Pin)} {line : String} {c : Nat × Pin}
    (h : lineCand acc line = some c) : SoundCand c := by
  unfold lineCand at h
  simp only [Option.bind_eq_some, Option.ite_none_left_eq_some,
    Option.ite_none_right_eq_some, Option.some.injEq] at h
  obtain ⟨m, hlm, h0, h256, hdup, hupper, hfp, hlenB, hdesc, rfl⟩ := h
  exact ⟨rfl, h0⟩

theorem processTable_sound {table : Grid} :
    ∀ c ∈ processTable table, SoundCand c := by
  unfold processTable
  split
  · simp
  dsimp only []
  split
  · split
    · simp
    · intro c hc
      rcases List.mem_filterMap.mp hc with ⟨row, _, hrow⟩
      exact processRow_sound hrow
  · simp

theorem tableCandidates_sound {doc : PDFDoc} {c : Nat × Pin}
    (h : c ∈ tableCandidates doc) : SoundCand c := by
  unfold tableCandidates at h
  rcases List.mem_flatMap.mp h with ⟨pg, _, hpg⟩
  rcases List.mem_flatMap.mp hpg with ⟨tbl, _, htbl⟩
  exact processTable_sound _ htbl

theorem lineAccum_sound {acc : List (Nat × Pin)} {line : String}
    (hacc : ∀ c ∈ acc, SoundCand c) : ∀ c ∈ lineAccum acc line, SoundCand c := by
  unfold lineAccum
  split
  case _ c2 hl =>
    intro c hc
    rcases List.mem_append.mp hc with h | h
    · exact hacc c h
    · rcases List.mem_singleton.mp h with rfl
      exact lineCand_sound hl
  case _ => exact hacc

theorem textScanLines_sound :
    ∀ (lines : List String) (acc : List (Nat × Pin)),
      (∀ c ∈ acc, SoundCand c) → ∀ c ∈ textScanLines acc lines, SoundCand c := by
  intro lines
  induction lines with
  | nil =>
    intro acc hacc c hc
    rw [textScanLines] at hc
    exact hacc c hc
  | cons l ls ih =>
    intro acc hacc c hc
    rw [textScanLines] at hc
    exact ih _ (lineAccum_sound hacc) c hc

theorem pageAccum_sound {acc : List (Nat × Pin)} {pg : PDFPage}
    (hacc : ∀ c ∈ acc, SoundCand c) : ∀ c ∈ pageAccum acc pg, SoundCand c := by
  unfold pageAccum
  split
  · split
    · exact hacc
    · exact textScanLines_sound _ acc hacc
  · exact hacc

theorem textScanPages_sound :
    ∀ (pgs : List PDFPage) (acc : List (Nat × Pin)),
      (∀ c ∈ acc, SoundCand c) → ∀ c ∈ textScanPages acc pgs, SoundCand c := by
  intro pgs
  induction pgs with
  | nil =>
    intro acc hacc c hc
    rw [textScanPages] at hc
    exact hacc c hc
  | cons pg pgs2 ih =>
    intro acc hacc c hc
    rw [textScanPages] at hc
    exact ih _ (pageAccum_sound hacc) c hc

theorem allCandidates_sound {doc : PDFDoc} :
    ∀ c ∈ allCandidates doc, SoundCand c := by
  intro c hc
  unfold allCandidates at hc
  exact textScanPages_sound _ _ (fun d hd => tableCandidates_sound hd) c hc

theorem lineAccum_append (acc : List (Nat × Pin)) (line : String) :
    ∃ tail, lineAccum acc line = acc ++ tail := by
  unfold lineAccum
  split
  · exact ⟨_, rfl⟩
  · exact ⟨[], (List.append_nil acc).symm⟩

theorem textScanLines_append :
    ∀ (lines : List String) (acc : List (Nat × Pin)),
      ∃ tail, textScanLines acc lines = acc ++ tail := by
  intro lines
  induction lines with
  | nil =>
    intro acc
    exact ⟨[], by rw [textScanLines, List.append_nil]⟩
  | cons l ls ih =>
    intro acc
    rcases lineAccum_append acc l with ⟨t0, ht0⟩
    rcases ih (lineAccum acc l) with ⟨t1, ht1⟩
    refine ⟨t0 ++ t1, ?_⟩
    rw [textScanLines, ht1, ht0, List.append_assoc]

theorem pageAccum_append (acc : List (Nat × Pin)) (pg : PDFPage) :
    ∃ tail, pageAccum acc pg = acc ++ tail := by
  unfold pageAccum
  split
  · split
    · exact ⟨[], (List.append_nil acc).symm⟩
    · exact textScanLines_append _ acc
  · exact ⟨[], (List.append_nil acc).symm⟩

theorem textScanPages_append :
    ∀ (pgs : List PDFPage) (acc : List (Nat × Pin)),
      ∃ tail, textScanPages acc pgs = acc ++ tail := by
  intro pgs
  induction pgs with
  | nil =>
    intro acc
    exact ⟨[], by rw [textScanPages, List.append_nil]⟩
  | cons pg pgs2 ih =>
    intro acc
    rcases pageAccum_append acc pg with ⟨t0, ht0⟩
    rcases ih (pageAccum acc pg) with ⟨t1, ht1⟩
    refine ⟨t0 ++ t1, ?_⟩
    rw [textScanPages, ht1, ht0, List.append_assoc]

/-- The candidate list of the strategy is the table candidates followed by
the text-fallback candidates. -/
theorem allCandidates_decomposition (doc : PDFDoc) :
    ∃ textCands, allCandidates doc = tableCandidates doc ++ textCands :=
  textScanPages_append _ _

/-! ### The merged pin list under candidate soundness -/

theorem mergeCandidates_pairwise {cands : List (Nat × Pin)}
    (hk : ∀ c ∈ cands, (c.2).number = PinNumber.num c.1) :
    (mergeCandidates cands).Pairwise (fun p q => pinNumLt p.number q.number) := by
  have hlt := sortByKey_pairwise_lt (dedupFirst cands) (dedupFirst_keys_pairwise cands)
  unfold mergeCandidates
  refine List.pairwise_map.mpr ?_
  refine hlt.imp_of_mem ?_
  intro a b ha hb hab
  have hka := hk a (dedupFirst_subset _ _ ((sortByKey_perm _).mem_iff.mp ha))
  have hkb := hk b (dedupFirst_subset _ _ ((sortByKey_perm _).mem_iff.mp hb))
  rw [hka, hkb]
  exact hab

theorem mergeCandidates_sound {cands : List (Nat × Pin)}
    (hs : ∀ c ∈ cands, SoundCand c) :
    ∀ p ∈ mergeCandidates cands, ∃ n, p.number = PinNumber.num n ∧ n ≠ 0 := by
  intro p hp
  rcases mergeCandidates_mem hp with ⟨n, hn⟩
  have := hs (n, p) (dedupFirst_subset _ _ hn)
  exact ⟨n, this.1, this.2⟩

/-! ### Lemmas about the last-write dict of the diagram strategy -/

theorem key_dictInsert_fn {α : Type} (k : Nat) (v : α) (e : Nat × α) :
    ((if e.1 == k then (k, v) else e) : Nat × α).1 = e.1 := by
  split
  · next hk => exact (eq_of_beq hk).symm
  · rfl

theorem dictInsert_keys_pairwise {α : Type} {d : List (Nat × α)}
    (h : d.Pairwise fun a b => a.1 ≠ b.1) (k : Nat) (v : α) :
    (dictInsert d k v).Pairwise (fun a b => a.1 ≠ b.1) := by
  unfold dictInsert
  split
  · refine List.Pairwise.map _ ?_ h
    intro a b hab
    rw [key_dictInsert_fn k v a, key_dictInsert_fn k v b]
    exact hab
  · next hany =>
    rw [List.pairwise_append]
    refine ⟨h, List.pairwise_singleton _ _, ?_⟩
    intro a ha b hb
    rcases List.mem_singleton.mp hb with rfl
    have := List.any_eq_true.not.mp hany
    push_neg at this
    have hak := this a ha
    simpa using hak

theorem mem_dictInsert {α : Type} {d : List (Nat × α)} {k n : Nat} {v w : α}
    (h : (n, w) ∈ dictInsert d k v) :
    (n = k ∧ w = v) ∨ ((n, w) ∈ d ∧ n ≠ k) := by
  unfold dictInsert at h
  split at h
  · rcases List.mem_map.mp h with ⟨e, he, hfe⟩
    by_cases hek : e.1 = k
    · left
      have : ((if e.1 == k then (k, v) else e) : Nat × α) = (k, v) := by simp [hek]
      rw [this] at hfe
      exact ⟨(congrArg Prod.fst hfe).symm, (congrArg Prod.snd hfe).symm⟩
    · right
      have hid : ((if e.1 == k then (k, v) else e) : Nat × α) = e := by
        have hb : (e.1 == k) = false := by simpa using hek
        simp [hb]
      rw [hid] at hfe
      subst hfe
      exact ⟨he, hek⟩
  · next hany =>
    rcases List.mem_append.mp h with hmem | hmem
    · right
      refine ⟨hmem, ?_⟩
      have := List.any_eq_true.not.mp hany
      push_neg at this
      simpa using this (n, w) hmem
    · left
      rcases List.mem_singleton.mp hmem with h2
      exact ⟨congrArg Prod.fst h2, congrArg Prod.snd h2⟩

theorem dictInsert_mem_self {α : Type} (d : List (Nat × α)) (k : Nat) (v : α) :
    ((k, v) : Nat × α) ∈ dictInsert d k v := by
  unfold dictInsert
  split
  · next hany =>
    rcases List.any_eq_true.mp hany with ⟨e, he, hek⟩
    refine List.mem_map.mpr ⟨e, he, ?_⟩
    simp [hek]
  · exact List.mem_append.mpr (Or.inr (List.mem_singleton.mpr rfl))

theorem mem_dictInsert_of_ne {α : Type} {d : List (Nat × α)} {n : Nat} {w : α}
    (h : (n, w) ∈ d) {k : Nat} (hne : n ≠ k) (v : α) : (n, w) ∈ dictInsert d k v := by
  unfold dictInsert
  split
  · refine List.mem_map.mpr ⟨(n, w), h, ?_⟩
    have : (n == k) = false := by simpa using hne
    simp [this]
  · exact List.mem_append.mpr (Or.inl h)

theorem mem_keys_dictInsert {α : Type} {d : List (Nat × α)} {k : Nat} {v : α} {n : Nat} :
    (∃ w, (n, w) ∈ dictInsert d k v) ↔ n = k ∨ ∃ w, (n, w) ∈ d := by
  constructor
  · rintro ⟨w, hw⟩
    rcases mem_dictInsert hw with ⟨rfl, _⟩ | ⟨hmem, _⟩
    · exact Or.inl rfl
    · exact Or.inr ⟨w, hmem⟩
  · rintro (rfl | ⟨w, hw⟩)
    · exact ⟨v, dictInsert_mem_self d n v⟩
    · by_cases hnk : n = k
      · exact ⟨v, hnk ▸ dictInsert_mem_self d k v⟩
      · exact ⟨w, mem_dictInsert_of_ne hw hnk v⟩

theorem foldl_dict_pairwise {α : Type} :
    ∀ (ps : List (Nat × α)) (d : List (Nat × α)),
      d.Pairwise (fun a b => a.1 ≠ b.1) →
      (List.foldl (fun d c => dictInsert d c.1 c.2) d ps).Pairwise (fun a b => a.1 ≠ b.1) := by
  intro ps
  induction ps with
  | nil => intro d h; exact h
  | cons c rest ih =>
    intro d h
    rw [List.foldl_cons]
    exact ih _ (dictInsert_keys_pairwise h c.1 c.2)

theorem dedupLast_keys_pairwise {α : Type} (ps : List (Nat × α)) :
    (dedupLast ps).Pairwise (fun a b => a.1 ≠ b.1) :=
  foldl_dict_pairwise ps [] (List.Pairwise.nil)

theorem foldl_dict_mem {α : Type} :
    ∀ (ps : List (Nat × α)) (d : List (Nat × α)) (n : Nat) (w : α),
      (n, w) ∈ List.foldl (fun d c => dictInsert d c.1 c.2) d ps →
      (ps.reverse.find? (fun e => e.1 == n) = some (n, w)) ∨
        ((∀ e ∈ ps, e.1 ≠ n) ∧ (n, w) ∈ d) := by
  intro ps
  induction ps with
  | nil =>
    intro d n w h
    exact Or.inr ⟨by simp, h⟩
  | cons c rest ih =>
    intro d n w h
    rw [List.foldl_cons] at h
    rcases ih _ n w h with hfind | ⟨hnone, hmem⟩
    · left
      rw [List.reverse_cons, List.find?_append, hfind]
      rfl
    · rcases mem_dictInsert hmem with ⟨rfl, rfl⟩ | ⟨hmem2, hne⟩
      · left
        rw [List.reverse_cons, List.find?_append]
        have hrev : rest.reverse.find? (fun e => e.1 == c.1) = none := by
          rw [List.find?_eq_none]
          intro x hx
          simpa using hnone x (List.mem_reverse.mp hx)
        rw [hrev]
        simp
      · right
        refine ⟨?_, hmem2⟩
        intro e he
        rcases List.mem_cons.mp he with rfl | he2
        · exact fun hh => hne hh.symm
        · exact hnone e he2

theorem dedupLast_lastWrite {α : Type} (ps : List (Nat × α)) :
    ∀ c ∈ dedupLast ps, ps.reverse.find? (fun e => e.1 == c.1) = some c := by
  rintro ⟨n, w⟩ hc
  rcases foldl_dict_mem ps [] n w hc with h | ⟨_, hmem⟩
  · exact h
  · exact absurd hmem (List.not_mem_nil _)

theorem foldl_dict_keys {α : Type} :
    ∀ (ps : List (Nat × α)) (d : List (Nat × α)) (n : Nat),
      (∃ w, (n, w) ∈ List.foldl (fun d c => dictInsert d c.1 c.2) d ps) ↔
        ((∃ w, (n, w) ∈ d) ∨ ∃ w, (n, w) ∈ ps) := by
  intro ps
  induction ps with
  | nil => intro d n; simp
  | cons c rest ih =>
    intro d n
    rw [List.foldl_cons, ih]
    constructor
    · rintro (hd | ⟨w, hw⟩)
      · rcases mem_keys_dictInsert.mp hd with rfl | hd2
        · exact Or.inr ⟨c.2, List.mem_cons_self _ _⟩
        · exact Or.inl hd2
      · exact Or.inr ⟨w, List.mem_cons_of_mem _ hw⟩
    · rintro (hd | ⟨w, hw⟩)
      · exact Or.inl (mem_keys_dictInsert.mpr (Or.inr hd))
      · rcases List.mem_cons.mp hw with h2 | h2
        · refine Or.inl (mem_keys_dictInsert.mpr (Or.inl ?_))
          exact congrArg Prod.fst h2
        · exact Or.inr ⟨w, h2⟩

theorem mem_keys_dedupLast {α : Type} (ps : List (Nat × α)) (n : Nat) :
    (∃ w, (n, w) ∈ dedupLast ps) ↔ (∃ w, (n, w) ∈ ps) := by
  have := foldl_dict_keys ps [] n
  simpa [dedupLast] using this

theorem pinNumLt_ne {a b : PinNumber} (h : pinNumLt a b) : a ≠ b := by
  intro heq
  subst heq
  cases a with
  | num x => exact Nat.lt_irrefl x h
  | alpha s => exact h.elim

/-! ### Concrete inputs used by the scenario claims -/

def tableC6 : Grid :=
  [[some "PIN#", some "NAME", some "I/O TYPE"], [some "3", some "SDA", some "Digital I/O"]]

def docC6 : PDFDoc := ⟨[⟨[tableC6], none⟩]⟩

def pinC6 : Pin := ⟨.num 3, "SDA", some ⟨some "Digital", some "I/O", none⟩⟩

/-! ### Claim theorems -/

/-- C6: a table with header row PIN#, NAME, I/O TYPE and single data row
3, SDA, Digital I/O yields exactly one Pin with number 3, name SDA and
details of type Digital and direction I/O, the combined i/o-type header
having assigned both the type and the direction role to column 2. -/
theorem C6_io_type_scenario :
    extract_pins_from_tables docC6 = some { pins := [pinC6], metadata := none } ∧
    (inferRoles (row0Headers tableC6)).typeIdx = some 2 ∧
    (inferRoles (row0Headers tableC6)).dirIdx = some 2 := by decide

/-- C7 counterexample: the diagram text consisting of the fragment VDD 1,
a newline, and the fragment 2 SDA contains both fragments, yet the
diagram-recognition strategy returns the single name 2 - the number-first
pattern matches 1, newline, 2 across the fragment boundary and its last
write overwrites the name VDD - so the claimed output VDD, SDA is not
produced. -/
theorem C7_counterexample :
    strContains "VDD 1\n2 SDA" "VDD 1" = true ∧
    strContains "VDD 1\n2 SDA" "2 SDA" = true ∧
    extract_pins_from_ocr "VDD 1\n2 SDA" = some ["2"] ∧
    some ["2"] ≠ some ["VDD", "SDA"] := by decide

/-- C7 amended: for the diagram text consisting of the fragment 2 SDA, a
newline, and the fragment VDD 1 (which contains both fragments), the
diagram-recognition strategy returns the ordered name list VDD, SDA, and
orchestrator normalization turns them into Pin records with sequential
numbers 1 and 2 in list order and metadata None.  (The original claim
fails for other texts containing the two fragments, such as the one in
the counterexample, because the two findall passes interact with the
surrounding text.) -/
theorem C7_amended_scenario :
    strContains "2 SDA\nVDD 1" "VDD 1" = true ∧
    strContains "2 SDA\nVDD 1" "2 SDA" = true ∧
    extract_pins_from_ocr "2 SDA\nVDD 1" = some ["VDD", "SDA"] ∧
    extract_pins_traditional none (extract_pins_from_ocr "2 SDA\nVDD 1") none =
      ⟨some { pins := [⟨.num 1, "VDD", none⟩, ⟨.num 2, "SDA", none⟩], metadata := none },
        true, false⟩ := by decide

/-- C1: over table candidates followed by text-fallback candidates, the
merge keeps only the first entry seen per pin number in that concatenated
order, a table-derived record takes precedence over any text-derived one
with the same number, the returned pins are sorted strictly ascending by
number, re-running the merge on the same candidate list yields the same
result, and the strategy's produced candidate list indeed has the
concatenated shape of table candidates followed by text-fallback
candidates. -/
theorem C1_merge_first_seen
    (tableCands textCands : List (Nat × Pin))
    (hk : ∀ c ∈ tableCands ++ textCands, (c.2).number = PinNumber.num c.1) :
    (∀ p ∈ mergeCandidates (tableCands ++ textCands),
        ∃ n, p.number = PinNumber.num n ∧
          (tableCands ++ textCands).find? (fun e => e.1 == n) = some (n, p)) ∧
    (∀ p ∈ mergeCandidates (tableCands ++ textCands), ∀ n q,
        p.number = PinNumber.num n → (n, q) ∈ tableCands → (n, p) ∈ tableCands) ∧
    (mergeCandidates (tableCands ++ textCands)).Pairwise
      (fun p q => pinNumLt p.number q.number) ∧
    mergeCandidates (tableCands ++ textCands) = mergeCandidates (tableCands ++ textCands) ∧
    (∀ doc : PDFDoc, ∃ tc, allCandidates doc = tableCandidates doc ++ tc) := by
  have hfirst : ∀ p ∈ mergeCandidates (tableCands ++ textCands),
      ∃ n, p.number = PinNumber.num n ∧
        (tableCands ++ textCands).find? (fun e => e.1 == n) = some (n, p) := by
    intro p hp
    rcases mergeCandidates_mem hp with ⟨n, hn⟩
    exact ⟨n, hk (n, p) (dedupFirst_subset _ _ hn), find?_dedupFirst _ n p hn⟩
  refine ⟨hfirst, ?_, mergeCandidates_pairwise hk, rfl, allCandidates_decomposition⟩
  intro p hp n q hpn htc
  rcases hfirst p hp with ⟨n2, hpn2, hfind⟩
  have hnn : n2 = n := by
    rw [hpn] at hpn2
    exact (PinNumber.num.injEq _ _).mp hpn2.symm
  subst hnn
  have hsome : (tableCands.find? (fun e => e.1 == n2)).isSome :=
    List.find?_isSome.mpr ⟨(n2, q), htc, by simp⟩
  rcases Option.isSome_iff_exists.mp hsome with ⟨c0, hc0⟩
  rw [List.find?_append, hc0] at hfind
  simp only [Option.or_some] at hfind
  rw [Option.some.injEq] at hfind
  rw [← hfind]
  exact List.mem_of_find?_eq_some hc0

def pinW (n : Nat) (s : String) : Pin := ⟨.num n, s, none⟩

/-- C1 witness at a concrete candidate list: the table candidate for pin 1
wins over the text candidate for pin 1 and the output is sorted. -/
theorem C1_merge_first_seen_witness :
    (∀ c ∈ [(2, pinW 2 "B"), (1, pinW 1 "A")] ++ [(1, pinW 1 "C")],
        (c.2).number = PinNumber.num c.1) ∧
    ((∀ p ∈ mergeCandidates ([(2, pinW 2 "B"), (1, pinW 1 "A")] ++ [(1, pinW 1 "C")]),
        ∃ n, p.number = PinNumber.num n ∧
          ([(2, pinW 2 "B"), (1, pinW 1 "A")] ++ [(1, pinW 1 "C")]).find?
            (fun e => e.1 == n) = some (n, p)) ∧
     (∀ p ∈ mergeCandidates ([(2, pinW 2 "B"), (1, pinW 1 "A")] ++ [(1, pinW 1 "C")]), ∀ n q,
        p.number = PinNumber.num n → (n, q) ∈ [(2, pinW 2 "B"), (1, pinW 1 "A")] →
          (n, p) ∈ [(2, pinW 2 "B"), (1, pinW 1 "A")]) ∧
     (mergeCandidates ([(2, pinW 2 "B"), (1, pinW 1 "A")] ++ [(1, pinW 1 "C")])).Pairwise
        (fun p q => pinNumLt p.number q.number) ∧
     mergeCandidates ([(2, pinW 2 "B"), (1, pinW 1 "A")] ++ [(1, pinW 1 "C")]) =
       mergeCandidates ([(2, pinW 2 "B"), (1, pinW 1 "A")] ++ [(1, pinW 1 "C")]) ∧
     (∀ doc : PDFDoc, ∃ tc, allCandidates doc = tableCandidates doc ++ tc)) :=
  ⟨by decide, C1_merge_first_seen [(2, pinW 2 "B"), (1, pinW 1 "A")] [(1, pinW 1 "C")]
    (by decide)⟩

/-- C3: every Pin in a successful structural-table result has a purely
numeric, nonzero pin number, and the numbers are pairwise distinct within
the result. -/
theorem C3_unique_nonzero_numbers (doc : PDFDoc) (r : TableResult)
    (h : extract_pins_from_tables doc = some r) :
    (∀ p ∈ r.pins, ∃ n, p.number = PinNumber.num n ∧ n ≠ 0) ∧
    r.pins.Pairwise (fun p q => p.number ≠ q.number) := by
  unfold extract_pins_from_tables at h
  split at h
  · split at h
    · cases h
      constructor
      · intro p hp
        exact absurd hp (List.not_mem_nil _)
      · exact List.Pairwise.nil
    · cases h
  · cases h
    have hk : ∀ c ∈ allCandidates doc, (c.2).number = PinNumber.num c.1 :=
      fun c hc => (allCandidates_sound c hc).1
    constructor
    · exact mergeCandidates_sound (fun c hc => allCandidates_sound c hc)
    · exact (mergeCandidates_pairwise hk).imp (fun hlt => pinNumLt_ne hlt)

/-- C3 witness at the concrete one-table document of scenario B. -/
theorem C3_unique_nonzero_numbers_witness :
    extract_pins_from_tables docC6 = some { pins := [pinC6], metadata := none } ∧
    ((∀ p ∈ ({ pins := [pinC6], metadata := none } : TableResult).pins,
        ∃ n, p.number = PinNumber.num n ∧ n ≠ 0) ∧
      ({ pins := [pinC6], metadata := none } : TableResult).pins.Pairwise
        (fun p q => p.number ≠ q.number)) :=
  ⟨by decide, C3_unique_nonzero_numbers docC6 { pins := [pinC6], metadata := none }
    (by decide)⟩

/-- C4: for every recognized diagram text with at least one matched pair,
the strategy pools the pairs of both regex shapes in source order, the
returned list is the value column of the cleaned dict sorted strictly
ascending by pin number, every kept entry is the last write for its pin
number in the pooled order (the opposite of the table strategy's
first-write rule), and a pin number appears in the dict exactly when some
pooled pair carries it. -/
theorem C4_last_write_ascending (text : String) (h : ocrPairs text ≠ []) :
    extract_pins_from_ocr text =
      some ((sortByKey (dedupLast (ocrPairs text))).map (·.2)) ∧
    ocrPairs text = pairsA text ++ pairsB text ∧
    (sortByKey (dedupLast (ocrPairs text))).Pairwise
      (fun a b : Nat × String => a.1 < b.1) ∧
    (∀ c ∈ sortByKey (dedupLast (ocrPairs text)),
        (ocrPairs text).reverse.find? (fun e => e.1 == c.1) = some c) ∧
    (∀ n : Nat, (∃ v, (n, v) ∈ ocrPairs text) ↔
        ∃ v, (n, v) ∈ sortByKey (dedupLast (ocrPairs text))) := by
  refine ⟨?_, rfl, ?_, ?_, ?_⟩
  · unfold extract_pins_from_ocr
    rw [if_neg h]
  · exact sortByKey_pairwise_lt _ (dedupLast_keys_pairwise _)
  · intro c hc
    exact dedupLast_lastWrite _ c ((sortByKey_perm _).mem_iff.mp hc)
  · intro n
    rw [← mem_keys_dedupLast (ocrPairs text) n]
    constructor
    · rintro ⟨v, hv⟩
      exact ⟨v, (sortByKey_perm _).mem_iff.mpr hv⟩
    · rintro ⟨v, hv⟩
      exact ⟨v, (sortByKey_perm _).mem_iff.mp hv⟩

/-- C4 witness at the concrete diagram text VDD 1. -/
theorem C4_last_write_ascending_witness :
    ocrPairs "VDD 1" ≠ [] ∧
    (extract_pins_from_ocr "VDD 1" =
        some ((sortByKey (dedupLast (ocrPairs "VDD 1"))).map (·.2)) ∧
      ocrPairs "VDD 1" = pairsA "VDD 1" ++ pairsB "VDD 1" ∧
      (sortByKey (dedupLast (ocrPairs "VDD 1"))).Pairwise
        (fun a b : Nat × String => a.1 < b.1) ∧
      (∀ c ∈ sortByKey (dedupLast (ocrPairs "VDD 1")),
          (ocrPairs "VDD 1").reverse.find? (fun e => e.1 == c.1) = some c) ∧
      (∀ n : Nat, (∃ v, (n, v) ∈ ocrPairs "VDD 1") ↔
          ∃ v, (n, v) ∈ sortByKey (dedupLast (ocrPairs "VDD 1")))) :=
  ⟨by decide, C4_last_write_ascending "VDD 1" (by decide)⟩

/-- C2: the traditional orchestrator returns a table result with at least
one pin unchanged, without invoking the diagram or the text strategy; when
the table strategy fails and the diagram strategy yields at least one pin,
the text strategy is not invoked; and when all three yield no pins the
orchestrator reports overall failure. -/
theorem C2_strategy_precedence (tbl : Option TableResult) (ocr txt : Option (List String)) :
    (∀ r, tbl = some r → r.pins ≠ [] →
        extract_pins_traditional tbl ocr txt = ⟨some r, false, false⟩) ∧
    ((tbl = none ∨ ∃ r, tbl = some r ∧ r.pins = []) →
      ∀ names, ocr = some names → names ≠ [] →
        extract_pins_traditional tbl ocr txt =
          ⟨some { pins := numberNames names, metadata := none }, true, false⟩) ∧
    ((tbl = none ∨ ∃ r, tbl = some r ∧ r.pins = []) →
      (ocr = none ∨ ocr = some []) → (txt = none ∨ txt = some []) →
      (extract_pins_traditional tbl ocr txt).result = none) := by
  refine ⟨?_, ?_, ?_⟩
  · rintro r rfl hr
    unfold extract_pins_traditional
    show (if r.pins = [] then tradFallback ocr txt
      else ⟨some r, false, false⟩) = _
    rw [if_neg hr]
  · rintro htbl names rfl hne
    have hfb : tradFallback (some names) txt =
        ⟨some { pins := numberNames names, metadata := none }, true, false⟩ := by
      unfold tradFallback
      show (if names = [] then tradText txt
        else ⟨some { pins := numberNames names, metadata := none }, true, false⟩) = _
      rw [if_neg hne]
    rcases htbl with rfl | ⟨r, rfl, hr⟩
    · unfold extract_pins_traditional
      exact hfb
    · unfold extract_pins_traditional
      show (if r.pins = [] then tradFallback (some names) txt
        else ⟨some r, false, false⟩) = _
      rw [if_pos hr]
      exact hfb
  · rintro htbl hocr htxt
    have htext : (tradText txt).result = none := by
      rcases htxt with rfl | rfl
      · rfl
      · rfl
    have hfb : (tradFallback ocr txt).result = none := by
      rcases hocr with rfl | rfl
      · exact htext
      · exact htext
    rcases htbl with rfl | ⟨r, rfl, hr⟩
    · exact hfb
    · unfold extract_pins_traditional
      show (if r.pins = [] then tradFallback ocr txt
        else (⟨some r, false, false⟩ : TradTrace)).result = none
      rw [if_pos hr]
      exact hfb

/-- C2 witness at a concrete table result with one pin. -/
theorem C2_strategy_precedence_witness :
    extract_pins_traditional (some { pins := [pinC6], metadata := none }) none none =
      ⟨some { pins := [pinC6], metadata := none }, false, false⟩ :=
  (C2_strategy_precedence (some { pins := [pinC6], metadata := none }) none none).1
    { pins := [pinC6], metadata := none } rfl (by decide)

/-- C9: when the structural-table strategy finds metadata but no pin
candidates it returns an empty pin list together with that metadata; the
traditional orchestrator treats this as a failure, invokes the diagram
strategy, and whatever result the chain then produces carries no metadata,
so the table strategy's metadata never reaches the output. -/
theorem C9_metadata_discarded (doc : PDFDoc) (m : Metadata) (ocr txt : Option (List String))
    (hc : allCandidates doc = []) (hm : docMetadata doc = some m) :
    extract_pins_from_tables doc = some { pins := [], metadata := some m } ∧
    (extract_pins_traditional (extract_pins_from_tables doc) ocr txt).ocrInvoked = true ∧
    (∀ res, (extract_pins_traditional (extract_pins_from_tables doc) ocr txt).result =
        some res → res.metadata = none) := by
  have h1 : extract_pins_from_tables doc = some { pins := [], metadata := some m } := by
    unfold extract_pins_from_tables
    rw [if_pos hc, hm]
  have htextI : (tradText txt).ocrInvoked = true := by
    unfold tradText
    rcases txt with _ | names
    · rfl
    · show (if names = [] then (⟨none, true, true⟩ : TradTrace)
        else ⟨some { pins := numberNames names, metadata := none }, true, true⟩).ocrInvoked = true
      split <;> rfl
  have htextM : ∀ res, (tradText txt).result = some res → res.metadata = none := by
    unfold tradText
    rcases txt with _ | names
    · intro res h; cases h
    · intro res h
      rw [show (match some names with
          | some names => if names = [] then (⟨none, true, true⟩ : TradTrace)
            else ⟨some { pins := numberNames names, metadata := none }, true, true⟩
          | none => ⟨none, true, true⟩) =
          (if names = [] then (⟨none, true, true⟩ : TradTrace)
            else ⟨some { pins := numberNames names, metadata := none }, true, true⟩) from rfl] at h
      split at h
      · cases h
      · cases h; rfl
  have hfbI : (tradFallback ocr txt).ocrInvoked = true := by
    unfold tradFallback
    rcases ocr with _ | names
    · exact htextI
    · show (if names = [] then tradText txt
        else ⟨some { pins := numberNames names, metadata := none }, true, false⟩).ocrInvoked = true
      split
      · exact htextI
      · rfl
  have hfbM : ∀ res, (tradFallback ocr txt).result = some res → res.metadata = none := by
    unfold tradFallback
    rcases ocr with _ | names
    · exact htextM
    · intro res h
      rw [show (match some names with
          | some names => if names = [] then tradText txt
            else (⟨some { pins := numberNames names, metadata := none }, true, false⟩ : TradTrace)
          | none => tradText txt) =
          (if names = [] then tradText txt
            else ⟨some { pins := numberNames names, metadata := none }, true, false⟩) from rfl] at h
      split at h
      · exact htextM res h
      · cases h; rfl
  rw [h1]
  refine ⟨rfl, ?_, ?_⟩
  · exact hfbI
  · exact hfbM

def docW9 : PDFDoc := ⟨[⟨[], some "x"⟩]⟩

def metaX : Metadata := ⟨[], [], none, none, none⟩

/-- C9 witness at a one-page document with text but no pin candidates. -/
theorem C9_metadata_discarded_witness :
    allCandidates docW9 = [] ∧ docMetadata docW9 = some metaX ∧
    (extract_pins_from_tables docW9 = some { pins := [], metadata := some metaX } ∧
      (extract_pins_traditional (extract_pins_from_tables docW9) none none).ocrInvoked = true ∧
      (∀ res, (extract_pins_traditional (extract_pins_from_tables docW9) none none).result =
          some res → res.metadata = none)) :=
  ⟨by decide, by decide, C9_metadata_discarded docW9 metaX none none (by decide) (by decide)⟩

def tableC8cx : Grid := [[none], [some "name"]]

/-- C8 counterexample: a two-row table whose single row-0 header cell is
empty and whose second row contains the keyword name satisfies the claimed
promotion conditions, yet the strategy does not promote row 1: data
extraction still starts at row 1, because the code additionally requires
the table to have more than two rows. -/
theorem C8_counterexample :
    (2 * (row0Headers tableC8cx).count "" > (row0Headers tableC8cx).length ∨
      ¬ ((row0Headers tableC8cx).any fun h => strContains h "name")) ∧
    (["name", "type", "description"].any
      (fun kw => strContains (joinSpace (row1Headers tableC8cx)) kw)) = true ∧
    (selectHeaders tableC8cx).2 ≠ 2 ∧ selectHeaders tableC8cx = (row0Headers tableC8cx, 1) := by
  decide

/-- C8 amended: for every table with MORE THAN TWO ROWS in which more than
half of the row-0 header cells are empty or no row-0 header cell contains
the word name, if the joined text of row 1 contains name, type, or
description, then row 1 is promoted to be the header row and data
extraction starts at row 2. -/
theorem C8_amended_header_promotion (table : Grid)
    (h3 : 2 < table.length)
    (hbad : 2 * (row0Headers table).count "" > (row0Headers table).length ∨
      ¬ ((row0Headers table).any fun h => strContains h "name"))
    (hkw : (["name", "type", "description"].any
        (fun kw => strContains (joinSpace (row1Headers table)) kw)) = true) :
    selectHeaders table = (row1Headers table, 2) := by
  unfold selectHeaders
  rw [if_pos hbad, if_pos h3, if_pos hkw]

def tableC8w : Grid := [[none, none], [some "NAME", some "TYPE"], [some "1", some "VDD"]]

/-- C8 witness at a concrete three-row table with an empty first header
row. -/
theorem C8_amended_header_promotion_witness :
    (2 < tableC8w.length ∧
      (2 * (row0Headers tableC8w).count "" > (row0Headers tableC8w).length ∨
        ¬ ((row0Headers tableC8w).any fun h => strContains h "name")) ∧
      (["name", "type", "description"].any
        (fun kw => strContains (joinSpace (row1Headers tableC8w)) kw)) = true) ∧
    selectHeaders tableC8w = (row1Headers tableC8w, 2) :=
  ⟨⟨by decide, by decide, by decide⟩,
    C8_amended_header_promotion tableC8w (by decide) (by decide) (by decide)⟩

def lpgA : PageData := ⟨1, "pin information", 15⟩

def lresA : LlmPageResult := ⟨[⟨.num 1, "VDD", none⟩]⟩

/-- C5 counterexample: a single-page run whose language-model call yields
one pin still returns an empty aggregated pin list, so the aggregated list
is not the concatenation of the per-page pins - the aggregation statement
is commented out in the source and all_pins stays empty. -/
theorem C5_counterexample :
    extract_pins_with_llm [lpgA] (fun _ => some lresA) =
      some { success := true, total_pages := 1, pages_with_pins := 1, pins := [],
             llm_results := [lresA] } ∧
    (([lpgA].filterMap (fun _ => some lresA)).map LlmPageResult.pins).flatten =
      [⟨.num 1, "VDD", none⟩] ∧
    ([] : List Pin) ≠ [⟨.num 1, "VDD", none⟩] := by decide

/-- C5 amended: in language-model mode the returned aggregate pin list is
always empty; the per-page results are collected independently into
llm_results in page order, and a page on which the provider call fails
contributes nothing without preventing the remaining pages' results from
being recorded. -/
theorem C5_amended_no_aggregation (pages : List PageData)
    (llm : PageData → Option LlmPageResult) (h : pages ≠ []) :
    extract_pins_with_llm pages llm =
      some { success := true, total_pages := pages.length,
             pages_with_pins := (pages.filterMap llm).length, pins := [],
             llm_results := pages.filterMap llm } ∧
    (∀ pre pg post, pages = pre ++ pg :: post → llm pg = none →
        pages.filterMap llm = pre.filterMap llm ++ post.filterMap llm) := by
  constructor
  · unfold extract_pins_with_llm
    rw [if_neg h]
  · intro pre pg post hsplit hnone
    subst hsplit
    rw [List.filterMap_append, List.filterMap_cons, hnone]

/-- C5 witness at a one-page input whose provider call fails. -/
theorem C5_amended_no_aggregation_witness :
    ([lpgA] : List PageData) ≠ [] ∧
    (extract_pins_with_llm [lpgA] (fun _ => none) =
        some { success := true, total_pages := 1, pages_with_pins := 0, pins := [],
               llm_results := [] } ∧
      (∀ pre pg post, ([lpgA] : List PageData) = pre ++ pg :: post →
          (fun (_ : PageData) => (none : Option LlmPageResult)) pg = none →
          ([lpgA].filterMap (fun _ => (none : Option LlmPageResult))) =
            pre.filterMap (fun _ => none) ++ post.filterMap (fun _ => none))) :=
  ⟨by decide, C5_amended_no_aggregation [lpgA] (fun _ => none) (by decide)⟩

/-- C10: in llm mode, whenever the extraction result is successful and
carries at least one pin, the result-output step reads the metadata local
variable, which is assigned only in the traditional branch, and the run
ends with an unbound-local-variable error instead of printing the final
JSON. -/
theorem C10_metadata_unbound (tradRes : Option TableResult) (r : LlmOutcome)
    (hs : r.success = true) (hp : r.pins ≠ []) :
    mainModel Method.llm tradRes (some r) = CliOutcome.unboundLocal "metadata" := by
  unfold mainModel
  show (if r.success = true then
      if r.pins = [] then CliOutcome.exitFail else outputStep (some r.pins) none
    else CliOutcome.exitFail) = _
  rw [if_pos hs, if_neg hp]
  unfold outputStep
  show (if r.pins = [] then CliOutcome.exitFail
    else match (none : Option (Option Metadata)) with
      | none => CliOutcome.unboundLocal "metadata"
      | some m => CliOutcome.printedJson r.pins m) = _
  rw [if_neg hp]

def llmResW : LlmOutcome := ⟨true, 1, 1, [⟨.num 1, "VDD", none⟩], [lresA]⟩

/-- C10 witness at a concrete successful llm result with one pin. -/
theorem C10_metadata_unbound_witness :
    (llmResW.success = true ∧ llmResW.pins ≠ []) ∧
    mainModel Method.llm none (some llmResW) = CliOutcome.unboundLocal "metadata" :=
  ⟨⟨by decide, by decide⟩, C10_metadata_unbound none llmResW (by decide) (by decide)⟩

end DSP
